import Mathlib

/-!
Verification development for the GEDCOM-to-JSON converter
(scripts/parse_gedcom.py).  The Python source is shallowly embedded:

* Python dicts are association lists with insert-or-overwrite-in-place
  semantics (a re-inserted key keeps its original position, as CPython
  dicts do);
* the line tokenizer implements the regex
  LEVEL WS (XREF)? WS* TAG WS* VALUE used by the source, including the
  leftmost-greedy backtracking behaviour of the optional XREF group;
* the hierarchical record builder is a structural pass over the list of
  lines with the source's sub-tag look-ahead, which scans forward in the
  remaining lines without consuming them;
* datetime.strptime is modelled for exactly the eight format strings the
  source tries, following CPython's _strptime regex semantics (ordered
  alternation with backtracking for the day directive, case-insensitive
  month names, whitespace-runs for format-string blanks, full-string
  match, year/month/day defaults 1900/1/1, and the validity check that
  datetime construction performs);
* the mutable state of the Python functions (record pointer, counters)
  becomes explicit state passing.

All definitions are executable so that concrete witnesses evaluate by
kernel reduction.
-/

namespace Gedcom

/-! ## Python dict model: association lists -/

/-- Python dict assignment: overwrite the value in place if the key is
present (keeping its position), otherwise append the binding at the end. -/
def dictInsert {K V : Type} [DecidableEq K] (k : K) (v : V) :
    List (K × V) → List (K × V)
  | [] => [(k, v)]
  | (k', v') :: rest =>
      if k' = k then (k, v) :: rest else (k', v') :: dictInsert k v rest

/-- Python dict lookup, returning none for a missing key. -/
def alookup {K V : Type} [DecidableEq K] (k : K) :
    List (K × V) → Option V
  | [] => none
  | (k', v) :: rest => if k' = k then some v else alookup k rest

/-- Modify the value stored at a key, if present (models in-place mutation
of a dict entry). -/
def aupdate {K V : Type} [DecidableEq K] (k : K) (f : V → V) :
    List (K × V) → List (K × V)
  | [] => []
  | (k', v) :: rest =>
      if k' = k then (k', f v) :: rest else (k', v) :: aupdate k f rest

/-- Append one element to the list stored at a key, creating the key with a
singleton list when absent.  Models the source's
"if tag not in d: d[tag] = []; d[tag].append(x)" idiom. -/
def appendAt {K V : Type} [DecidableEq K] (k : K) (x : V) :
    List (K × List V) → List (K × List V)
  | [] => [(k, [x])]
  | (k', vs) :: rest =>
      if k' = k then (k', vs ++ [x]) :: rest else (k', vs) :: appendAt k x rest

/-! ## Python string helpers -/

/-- The whitespace characters recognised by Python's str.strip and by the
regex class backslash-s (ASCII range). -/
def isPySpace (c : Char) : Bool :=
  c = ' ' || c = '\t' || c = '\n' || c = '\r' || c = '\x0b' || c = '\x0c'

/-- A word character for the regex class backslash-w (ASCII model: the
source file only contains ASCII tags and ids). -/
def isWordChar (c : Char) : Bool :=
  c.isAlphanum || c = '_'

/-- Python str.strip(): drop leading and trailing whitespace. -/
def pyStrip (s : String) : String :=
  String.mk (((s.data.dropWhile isPySpace).reverse.dropWhile isPySpace).reverse)

/-- Python str.upper() on ASCII text. -/
def pyUpper (s : String) : String :=
  String.mk (s.data.map Char.toUpper)

/-- Python s.replace("@", ""): remove every at-sign. -/
def stripAt (s : String) : String :=
  String.mk (s.data.filter (fun c => c ≠ '@'))

/-- Python slicing s[n:] by character count. -/
def dropChars (n : Nat) (s : String) : String :=
  String.mk (s.data.drop n)

/-- Value of one decimal digit character. -/
def digitVal (c : Char) : Nat := c.toNat - 48

/-- Python int() on a string of decimal digits. -/
def strToNat (cs : List Char) : Nat :=
  cs.foldl (fun a c => 10 * a + digitVal c) 0

/-! ## Line tokenizer

The source matches each stripped line against the regex
caret (digits) ws+ (at word at)? ws* (word+) ws* (anything) dollar
and skips lines that do not match. -/

/-- One tokenized GEDCOM line. -/
structure Token where
  level : Nat
  xref : Option String
  tag : String
  value : String
  deriving DecidableEq, Repr

/-- Shared tail of the regex after the optional xref group:
ws* then a non-empty word-character run (the tag), then ws*, then the rest
of the line as the value. -/
def tagRest (level : Nat) (xref : Option String) (cs : List Char) :
    Option Token :=
  let cs1 := cs.dropWhile isPySpace
  let tagCs := cs1.takeWhile isWordChar
  let r3 := cs1.dropWhile isWordChar
  if tagCs.isEmpty then none
  else some ⟨level, xref, String.mk tagCs, String.mk (r3.dropWhile isPySpace)⟩

/-- Tokenize one (already stripped) line.  The optional xref group is tried
first, and abandoned (regex backtracking) when the remainder of the pattern
cannot match afterwards; inside the xref group the word-run is necessarily
maximal because it must be followed by a literal at-sign. -/
def tokenize (cs : List Char) : Option Token :=
  let digits := cs.takeWhile Char.isDigit
  let r1 := cs.dropWhile Char.isDigit
  if digits.isEmpty then none
  else
    let ws := r1.takeWhile isPySpace
    let r2 := r1.dropWhile isPySpace
    if ws.isEmpty then none
    else
      let level := strToNat digits
      match r2 with
      | '@' :: r2' =>
          let w := r2'.takeWhile isWordChar
          let r3 := r2'.dropWhile isWordChar
          if w.isEmpty then tagRest level none r2
          else
            match r3 with
            | '@' :: r4 =>
                match tagRest level (some (String.mk ('@' :: (w ++ ['@'])))) r4 with
                | some t => some t
                | none => tagRest level none r2
            | _ => tagRest level none r2
      | _ => tagRest level none r2

/-! ## Hierarchical record builder -/

/-- One entry of a record: the line's value together with the sub-tag map
collected by the look-ahead (sub-tag to ordered list of values). -/
structure RawEntry where
  value : String
  sub : List (String × List String)
  deriving DecidableEq, Repr

/-- A top-level record: its type tag, its cross-reference id as it appears
at level 0, and the tag-to-entries map. -/
structure RawRec where
  rtype : String
  id : String
  raw : List (String × List RawEntry)
  deriving DecidableEq, Repr

/-- Builder state: the three record maps plus the current-record pointer
(type tag and xref id of the open record, if any). -/
structure PState where
  individuals : List (String × RawRec)
  families : List (String × RawRec)
  sources : List (String × RawRec)
  current : Option (String × String)
  deriving DecidableEq, Repr

def initState : PState := ⟨[], [], [], none⟩

/-- Append a sub-tag value, mirroring the source's sub-dict append. -/
def subAppend (tag v : String) (sub : List (String × List String)) :
    List (String × List String) :=
  appendAt tag v sub

/-- The look-ahead loop of the builder: scan forward through the remaining
lines, skipping unmatchable lines, collecting values of lines exactly one
level deeper, walking over deeper-than-adjacent lines, and stopping at the
first line whose level is at most the current line's level.  The scan index
j is local to this loop; the outer iteration is unaffected. -/
def lookAheadCollect (level : Nat) :
    List String → List (String × List String) → List (String × List String)
  | [], sub => sub
  | l :: ls, sub =>
      match tokenize (pyStrip l).data with
      | none => lookAheadCollect level ls sub
      | some t =>
          if t.level ≤ level then sub
          else if t.level = level + 1 then
            lookAheadCollect level ls (subAppend t.tag t.value sub)
          else lookAheadCollect level ls sub

/-- Update the record stored under the given xref id in the map selected by
the record-type tag.  Unrecognised type tags touch nothing (unreachable:
the current pointer only ever holds INDI, FAM or SOUR). -/
def updateMap (ty x : String) (f : RawRec → RawRec) (st : PState) : PState :=
  if ty = "INDI" then { st with individuals := aupdate x f st.individuals }
  else if ty = "FAM" then { st with families := aupdate x f st.families }
  else if ty = "SOUR" then { st with sources := aupdate x f st.sources }
  else st

/-- Open a fresh record of the given type under the given xref id. -/
def openRec (ty x : String) (st : PState) : PState :=
  if ty = "INDI" then
    { st with individuals := dictInsert x ⟨"INDI", x, []⟩ st.individuals,
              current := some ("INDI", x) }
  else if ty = "FAM" then
    { st with families := dictInsert x ⟨"FAM", x, []⟩ st.families,
              current := some ("FAM", x) }
  else
    { st with sources := dictInsert x ⟨"SOUR", x, []⟩ st.sources,
              current := some ("SOUR", x) }

/-- Process one token.  rest is the list of lines after the current one; it
is consulted only by the sub-tag look-ahead of the level-greater-than-zero
branch.  In the source the entry is appended first and its sub dict mutated
during the look-ahead; the final state is the same as appending the entry
with its completed sub map. -/
def step (t : Token) (rest : List String) (st : PState) : PState :=
  if t.level = 0 then
    match t.xref with
    | some x =>
        if t.tag = "INDI" ∨ t.tag = "FAM" ∨ t.tag = "SOUR" then
          openRec t.tag x st
        else { st with current := none }
    | none => { st with current := none }
  else
    match st.current with
    | none => st
    | some (ty, x) =>
        updateMap ty x
          (fun r =>
            { r with raw :=
                appendAt t.tag ⟨t.value, lookAheadCollect t.level rest []⟩ r.raw })
          st

/-- The outer single pass of parse_gedcom: every line is visited at its own
position; blank and unmatchable lines are skipped; the look-ahead of a
processed line only reads the remaining lines. -/
def buildRecords : List String → PState → PState
  | [], st => st
  | l :: rest, st =>
      match tokenize (pyStrip l).data with
      | none => buildRecords rest st
      | some t => buildRecords rest (step t rest st)

/-- parse_gedcom on a list of physical lines. -/
def parse_gedcom (lines : List String) : PState :=
  buildRecords lines initState

/-! ## Date normalizer

format_date strips one qualifier, then tries the eight strptime format
strings in order; the strptime model below follows CPython's _strptime
regex compilation for exactly these directives. -/

/-- Directives occurring in the eight format strings of the source.
A blank in a format string compiles to a whitespace run. -/
inductive Dir where
  | day        -- two-digit-or-one-digit day, regex 3[01]|[12]d|0[1-9]|[1-9]
  | year4      -- exactly four digits
  | year2      -- exactly two digits, century-windowed (00-68 to 2000s)
  | monAbbr    -- case-insensitive abbreviated month name
  | monFull    -- case-insensitive full month name
  | ws         -- one or more whitespace characters
  | lit (c : Char)  -- a literal character (the comma)
  deriving DecidableEq, Repr

/-- The fields strptime extracts, with CPython's defaults 1900-01-01. -/
structure Parsed where
  y : Nat
  m : Nat
  d : Nat
  deriving DecidableEq, Repr

/-- Lowercase abbreviated month names, indices 1 to 12. -/
def monthAbbrs : List String :=
  ["jan", "feb", "mar", "apr", "may", "jun",
   "jul", "aug", "sep", "oct", "nov", "dec"]

/-- Lowercase full month names, indices 1 to 12.  In CPython the regex
alternation is sorted longest-first, but as no month name is a proper
initial segment of another the alternation order cannot change the result,
so calendar order is used here. -/
def monthFulls : List String :=
  ["january", "february", "march", "april", "may", "june",
   "july", "august", "september", "october", "november", "december"]

/-- Candidate matches of a month-name alternation at the head of the input,
case-insensitively, in list order, paired with the month number. -/
def monthAlts (i : Nat) : List String → List Char → List (Nat × List Char)
  | [], _ => []
  | nm :: rest, cs =>
      let n := nm.length
      if (cs.take n).map Char.toLower = nm.data then
        (i, cs.drop n) :: monthAlts (i + 1) rest cs
      else monthAlts (i + 1) rest cs

/-- Candidate matches of the day directive, in the alternation order of
CPython's regex (31 30 | 10-29 | 01-09 | 1-9); backtracking tries them in
this order. -/
def dayAlts (cs : List Char) : List (Nat × List Char) :=
  (match cs with
   | '3' :: c :: r =>
       if c = '0' ∨ c = '1' then [(30 + digitVal c, r)] else []
   | _ => []) ++
  (match cs with
   | a :: b :: r =>
       if (a = '1' ∨ a = '2') ∧ b.isDigit then
         [(10 * digitVal a + digitVal b, r)]
       else []
   | _ => []) ++
  (match cs with
   | '0' :: b :: r =>
       if b.isDigit ∧ b ≠ '0' then [(digitVal b, r)] else []
   | _ => []) ++
  (match cs with
   | a :: r =>
       if a.isDigit ∧ a ≠ '0' then [(digitVal a, r)] else []
   | _ => [])

/-- Candidate continuations after consuming one directive, each updating
the parsed fields, listed in the regex alternation order. -/
def dirAlts (p : Parsed) (d : Dir) (cs : List Char) :
    List (Parsed × List Char) :=
  match d with
  | .day => (dayAlts cs).map (fun x => ({ p with d := x.1 }, x.2))
  | .year4 =>
      match cs with
      | a :: b :: c :: e :: r =>
          if a.isDigit ∧ b.isDigit ∧ c.isDigit ∧ e.isDigit then
            [({ p with y := 1000 * digitVal a + 100 * digitVal b +
                            10 * digitVal c + digitVal e }, r)]
          else []
      | _ => []
  | .year2 =>
      match cs with
      | a :: b :: r =>
          if a.isDigit ∧ b.isDigit then
            let yy := 10 * digitVal a + digitVal b
            [({ p with y := if yy ≤ 68 then 2000 + yy else 1900 + yy }, r)]
          else []
      | _ => []
  | .monAbbr => (monthAlts 1 monthAbbrs cs).map (fun x => ({ p with m := x.1 }, x.2))
  | .monFull => (monthAlts 1 monthFulls cs).map (fun x => ({ p with m := x.1 }, x.2))
  | .ws =>
      let w := cs.takeWhile isPySpace
      if w.isEmpty then [] else [(p, cs.dropWhile isPySpace)]
  | .lit c =>
      match cs with
      | c' :: r => if c' = c then [(p, r)] else []
      | [] => []

/-- Backtracking matcher for a directive list against the whole input
(strptime requires the match to span the full string). -/
def matchDirs : List Dir → List Char → Parsed → Option Parsed
  | [], cs, p => if cs.isEmpty then some p else none
  | d :: ds, cs, p => (dirAlts p d cs).findSome? (fun x => matchDirs ds x.2 x.1)

/-- Gregorian leap-year rule used by datetime. -/
def isLeap (y : Nat) : Bool :=
  y % 4 = 0 && (y % 100 ≠ 0 || y % 400 = 0)

/-- Days in a month, as validated by datetime's constructor. -/
def daysInMonth (y m : Nat) : Nat :=
  [31, if isLeap y then 29 else 28, 31, 30, 31, 30,
   31, 31, 30, 31, 30, 31].getD (m - 1) 0

/-- The validity check that raises ValueError when datetime.strptime
builds the datetime object (year range and day-of-month range). -/
def validDate (p : Parsed) : Bool :=
  1 ≤ p.y && p.y ≤ 9999 && 1 ≤ p.m && p.m ≤ 12 &&
  1 ≤ p.d && p.d ≤ daysInMonth p.y p.m

/-- datetime.strptime for one of the eight modelled formats: none both when
the regex fails and when datetime construction would raise ValueError
(either way the source's except-continue moves to the next format). -/
def strptime (cs : List Char) (dirs : List Dir) : Option Parsed :=
  match matchDirs dirs cs ⟨1900, 1, 1⟩ with
  | none => none
  | some p => if validDate p then some p else none

/-- The ordered format list of the source, each format string paired with
its directive translation. -/
def date_formats : List (String × List Dir) :=
  [("%d %b %Y", [.day, .ws, .monAbbr, .ws, .year4]),
   ("%d %B %Y", [.day, .ws, .monFull, .ws, .year4]),
   ("%b %d, %Y", [.monAbbr, .ws, .day, .lit ',', .ws, .year4]),
   ("%B %d, %Y", [.monFull, .ws, .day, .lit ',', .ws, .year4]),
   ("%d %b %y", [.day, .ws, .monAbbr, .ws, .year2]),
   ("%Y", [.year4]),
   ("%b %Y", [.monAbbr, .ws, .year4]),
   ("%B %Y", [.monFull, .ws, .year4])]

/-- Capitalised full month name, as rendered by strftime with directive B. -/
def monthName (m : Nat) : String :=
  ["January", "February", "March", "April", "May", "June",
   "July", "August", "September", "October", "November",
   "December"].getD (m - 1) ""

/-- The format-trial loop of format_date: first matching format wins, and
the rendering template is selected by comparing the format string exactly
as the source does. -/
def tryFormats (qual : String) (cs : List Char) :
    List (String × List Dir) → Option String
  | [] => none
  | (fname, dirs) :: rest =>
      match strptime cs dirs with
      | none => tryFormats qual cs rest
      | some p =>
          if fname = "%Y" then some (qual ++ Nat.repr p.y)
          else if fname = "%b %Y" ∨ fname = "%B %Y" then
            some (qual ++ monthName p.m ++ " " ++ Nat.repr p.y)
          else
            some (qual ++ monthName p.m ++ " " ++ Nat.repr p.d ++ ", " ++
                  Nat.repr p.y)

/-- The qualifier table of the source: checked prefix (with trailing blank)
and the qualifier word it maps to. -/
def qualPairs : List (String × String) :=
  [("ABT ", "circa "), ("ABOUT ", "circa "), ("CIRCA ", "circa "),
   ("BEF ", "before "), ("AFT ", "after "), ("EST ", "circa ")]

/-- The qualifier loop: the first table entry whose key is a prefix of the
uppercased string wins (break); the matched prefix is sliced off the
original, non-uppercased string. -/
def findQual : List (String × String) → String → String × String
  | [], s => ("", s)
  | (p, out) :: rest, s =>
      if p.data.isPrefixOf (pyUpper s).data then (out, dropChars p.length s)
      else findQual rest s

/-- format_date.  A missing or empty input is falsy and yields none; an
unparseable non-empty remainder falls back to the qualifier plus the
remainder verbatim; the function is total, it never fails. -/
def format_date (ds : Option String) : Option String :=
  match ds with
  | none => none
  | some s0 =>
      if s0 = "" then none
      else
        let s1 := pyStrip s0
        let (qual, s2) := findQual qualPairs s1
        match tryFormats qual s2.data date_formats with
        | some r => some r
        | none => if s2 = "" then none else some (qual ++ s2)

/-! ## Entity extraction -/

/-- Fuelled kernel of re.sub removing every slash-delimited segment
(leftmost, non-overlapping); a slash with no closing slash matches nothing
and the remainder is kept verbatim.  The fuel only serves structural
recursion; one unit is spent per character consumed, so input length
suffices. -/
def removeSlashCore : Nat → List Char → List Char
  | 0, cs => cs
  | _ + 1, [] => []
  | f + 1, c :: rest =>
      if c = '/' then
        match rest.dropWhile (fun x => x ≠ '/') with
        | '/' :: r' => removeSlashCore f r'
        | _ => c :: rest
      else c :: removeSlashCore f rest

/-- Python re.sub removing slash-delimited segments from a name. -/
def removeSlashSegs (cs : List Char) : List Char :=
  removeSlashCore cs.length cs

/-- re.search for the first slash-delimited segment: at the first slash,
the segment runs to the next slash; if no closing slash exists anywhere
after it, there is no match at all (no later start position can begin a
match either, since no slash remains). -/
def findSurname : List Char → Option String
  | [] => none
  | c :: rest =>
      if c = '/' then
        match rest.takeWhile (fun x => x ≠ '/'), rest.dropWhile (fun x => x ≠ '/') with
        | seg, '/' :: _ => some (String.mk seg)
        | _, _ => none
      else findSurname rest

/-- Fuelled kernel of Python str.split() with no argument: split on
whitespace runs, producing no empty words. -/
def pySplitCore : Nat → List Char → List String
  | 0, _ => []
  | f + 1, cs =>
      match cs.dropWhile isPySpace with
      | [] => []
      | c :: rest =>
          String.mk (c :: rest.takeWhile (fun x => !isPySpace x)) ::
            pySplitCore f (rest.dropWhile (fun x => !isPySpace x))

/-- Python str.split() on whitespace. -/
def pySplit (s : String) : List String :=
  pySplitCore s.data.length s.data

/-- Python " ".join. -/
def joinSpace : List String → String
  | [] => ""
  | [w] => w
  | w :: ws => w ++ " " ++ joinSpace ws

/-- A birth or death sub-object. -/
structure EventInfo where
  date : Option String
  place : Option String
  deriving DecidableEq, Repr

/-- One residence item; the source builds a dict that may hold a date key,
a place key, or both (a key present with value None still counts as
present for the non-empty-dict inclusion test, which is keyed on the raw
sub-tags, so the Option fields here lose nothing). -/
structure Residence where
  date : Option String
  place : Option String
  deriving DecidableEq, Repr

/-- The person entity, with the transient family-membership fields and the
original ancestry id still attached (they are removed by remap_ids). -/
structure Person where
  id : String
  firstName : String
  middleName : Option String
  lastName : String
  maidenName : Option String
  gender : Option String
  birth : EventInfo
  death : EventInfo
  notes : Option String
  profilePhoto : Option String
  residences : List Residence
  famc : List String
  fams : List String
  ancestryId : String
  deriving DecidableEq, Repr

/-- First/middle-name split shared by the GIVN branch and the
parse-from-full-name branch of the source. -/
def splitGiven (given : String) (p : Person) : Person :=
  let parts := pySplit given
  let p := { p with firstName := parts.headD "" }
  if parts.length > 1 then { p with middleName := some (joinSpace parts.tail) }
  else p

/-- The NAME branch of extract_person. -/
def applyName (e : RawEntry) (p : Person) : Person :=
  let p :=
    match findSurname e.value.data with
    | some sn => { p with lastName := sn }
    | none => p
  match alookup "GIVN" e.sub with
  | some (g :: _) => splitGiven g p
  | _ => splitGiven (pyStrip (String.mk (removeSlashSegs e.value.data))) p

/-- The Name block of extract_person. -/
def nameStage (raw : List (String × List RawEntry)) (p : Person) : Person :=
  match alookup "NAME" raw with
  | some (e :: _) => applyName e p
  | _ => p

/-- The Gender block of extract_person. -/
def sexStage (raw : List (String × List RawEntry)) (p : Person) : Person :=
  match alookup "SEX" raw with
  | some (e :: _) =>
      { p with gender :=
          if e.value = "M" then some "male"
          else if e.value = "F" then some "female" else none }
  | _ => p

/-- The Birth block of extract_person. -/
def birthStage (raw : List (String × List RawEntry)) (p : Person) : Person :=
  match alookup "BIRT" raw with
  | some (e :: _) =>
      let p :=
        match alookup "DATE" e.sub with
        | some (d :: _) => { p with birth := { p.birth with date := format_date (some d) } }
        | _ => p
      (match alookup "PLAC" e.sub with
       | some (pl :: _) => { p with birth := { p.birth with place := some pl } }
       | _ => p)
  | _ => p

/-- The Death block of extract_person. -/
def deathStage (raw : List (String × List RawEntry)) (p : Person) : Person :=
  match alookup "DEAT" raw with
  | some (e :: _) =>
      let p :=
        match alookup "DATE" e.sub with
        | some (d :: _) => { p with death := { p.death with date := format_date (some d) } }
        | _ => p
      (match alookup "PLAC" e.sub with
       | some (pl :: _) => { p with death := { p.death with place := some pl } }
       | _ => p)
  | _ => p

/-- The Notes block of extract_person: non-empty NOTE values joined by a
single blank, or left none when no non-empty note exists. -/
def noteStage (raw : List (String × List RawEntry)) (p : Person) : Person :=
  match alookup "NOTE" raw with
  | some es =>
      let notes := (es.map RawEntry.value).filter (fun v => v ≠ "")
      if notes.isEmpty then p else { p with notes := some (joinSpace notes) }
  | none => p

/-- One residence item, appended only when the entry carries a DATE or a
PLAC sub-tag (the source's non-empty-dict test). -/
def resiStep (acc : List Residence) (e : RawEntry) : List Residence :=
  let d := match alookup "DATE" e.sub with
           | some (x :: _) => format_date (some x)
           | _ => none
  let pl := match alookup "PLAC" e.sub with
            | some (x :: _) => some x
            | _ => none
  if (alookup "DATE" e.sub).isSome ∨ (alookup "PLAC" e.sub).isSome then
    acc ++ [({ date := d, place := pl } : Residence)]
  else acc

/-- The Residences block of extract_person. -/
def resiStage (raw : List (String × List RawEntry)) (p : Person) : Person :=
  match alookup "RESI" raw with
  | some es => { p with residences := es.foldl resiStep p.residences }
  | none => p

/-- The transient family-connection block of extract_person. -/
def famStage (raw : List (String × List RawEntry)) (p : Person) : Person :=
  { p with famc := ((alookup "FAMC" raw).getD []).map RawEntry.value,
           fams := ((alookup "FAMS" raw).getD []).map RawEntry.value }

/-- extract_person: the stages of the source function in order.  Entry
lists in the raw map are never empty when they come from the record
builder (appendAt always appends), so the collapsed match arms for an
empty entry list are unreachable there. -/
def extract_person (indi : RawRec) : Person :=
  let p : Person :=
    { id := stripAt indi.id, firstName := "", middleName := none,
      lastName := "", maidenName := none, gender := none,
      birth := ⟨none, none⟩, death := ⟨none, none⟩, notes := none,
      profilePhoto := none, residences := [], famc := [], fams := [],
      ancestryId := indi.id }
  famStage indi.raw (resiStage indi.raw (noteStage indi.raw
    (deathStage indi.raw (birthStage indi.raw
      (sexStage indi.raw (nameStage indi.raw p))))))

/-- The family entity, ancestry id retained as in the source dict. -/
structure Family where
  id : String
  husband : Option String
  wife : Option String
  children : List String
  marriageDate : Option String
  marriagePlace : Option String
  divorceDate : Option String
  ancestryId : String
  deriving DecidableEq, Repr

/-- extract_family; husband, wife and children ids are stripped of their
at-signs immediately. -/
def extract_family (fam : RawRec) : Family :=
  let f : Family :=
    { id := stripAt fam.id, husband := none, wife := none, children := [],
      marriageDate := none, marriagePlace := none, divorceDate := none,
      ancestryId := fam.id }
  let f :=
    match alookup "HUSB" fam.raw with
    | some (e :: _) => { f with husband := some (stripAt e.value) }
    | _ => f
  let f :=
    match alookup "WIFE" fam.raw with
    | some (e :: _) => { f with wife := some (stripAt e.value) }
    | _ => f
  let f :=
    match alookup "CHIL" fam.raw with
    | some es => { f with children := es.map (fun c => stripAt c.value) }
    | none => f
  let f :=
    match alookup "MARR" fam.raw with
    | some (e :: _) =>
        let f :=
          match alookup "DATE" e.sub with
          | some (d :: _) => { f with marriageDate := format_date (some d) }
          | _ => f
        match alookup "PLAC" e.sub with
        | some (pl :: _) => { f with marriagePlace := some pl }
        | _ => f
    | _ => f
  match alookup "DIV" fam.raw with
  | some (e :: _) =>
      (match alookup "DATE" e.sub with
       | some (d :: _) => { f with divorceDate := format_date (some d) }
       | _ => f)
  | _ => f

/-! ## Relationships and identifier remapping -/

/-- Python truthiness of an optional string field: present and non-empty. -/
def truthyS : Option String → Bool
  | none => false
  | some s => !(s == "")

/-- Fuelled kernel producing the decimal digit characters of a positive
number (big-endian); fuel at least n suffices since n / 10 decreases. -/
def decCharsCore : Nat → Nat → List Char
  | 0, _ => []
  | f + 1, n =>
      if n = 0 then []
      else decCharsCore f (n / 10) ++ [Nat.digitChar (n % 10)]

/-- Decimal digit characters of a natural number (big-endian). -/
def decChars (n : Nat) : List Char :=
  if n = 0 then ['0'] else decCharsCore n n

/-- Python format spec 03d: the decimal representation left-padded with
zeros to at least three characters. -/
def fmt3 (n : Nat) : String :=
  String.mk (List.replicate (3 - (decChars n).length) '0' ++ decChars n)

/-- Decimal value of a digit-character list (used to show the zero-padded
id rendering is injective). -/
def strVal (l : List Char) : Nat :=
  l.foldl (fun a c => 10 * a + digitVal c) 0

/-- The association list create_id_mapping builds when all keys are fresh:
the k-th person (0-based) of the enumeration starting at n is bound to the
sequential id p-formatted (n + k). -/
def idPairs (n : Nat) : List Person → List (String × String)
  | [] => []
  | p :: ps => (stripAt p.ancestryId, "p" ++ fmt3 n) :: idPairs (n + 1) ps

/-- A relationship edge, modelling the source dict with its per-type keys
as optional fields: a spouse edge populates person1/person2 and the
marriage fields, a parent-child edge populates parent/child. -/
structure Relationship where
  id : String
  rtype : String
  person1 : Option String
  person2 : Option String
  marriageDate : Option String
  marriagePlace : Option String
  divorceDate : Option String
  parent : Option String
  child : Option String
  deriving DecidableEq, Repr

/-- The spouse edge of a family, with a given sequential number. -/
def mkSpouse (fam : Family) (n : Nat) : Relationship :=
  { id := "r" ++ fmt3 n, rtype := "spouse",
    person1 := fam.husband, person2 := fam.wife,
    marriageDate := fam.marriageDate, marriagePlace := fam.marriagePlace,
    divorceDate := fam.divorceDate, parent := none, child := none }

/-- One parent-child edge. -/
def mkPC (p c : String) (n : Nat) : Relationship :=
  { id := "r" ++ fmt3 n, rtype := "parent-child",
    person1 := none, person2 := none, marriageDate := none,
    marriagePlace := none, divorceDate := none,
    parent := some p, child := some c }

/-- The truthy parents list [p for p in [husband, wife] if p]. -/
def parentsOf (fam : Family) : List String :=
  ([fam.husband, fam.wife].filterMap id).filter (fun s => s ≠ "")

/-- Inner loop over parents for one child, threading the edge counter. -/
def pcInner (c : String) : List String → Nat → List Relationship
  | [], _ => []
  | p :: ps, n => mkPC p c n :: pcInner c ps (n + 1)

/-- Outer loop over children, threading the edge counter. -/
def pcEdges (parents : List String) : List String → Nat → List Relationship
  | [], _ => []
  | c :: cs, n => pcInner c parents n ++ pcEdges parents cs (n + parents.length)

/-- The edges emitted for one family: the spouse edge when both spouses
are truthy, then the parent-child edges (children outer, parents inner). -/
def famRels (fam : Family) (n : Nat) : List Relationship :=
  let spouse :=
    if truthyS fam.husband && truthyS fam.wife then [mkSpouse fam n] else []
  spouse ++ pcEdges (parentsOf fam) fam.children (n + spouse.length)

/-- The family loop of build_relationships, threading the global counter. -/
def buildRelGo : List (String × Family) → Nat → List Relationship
  | [], _ => []
  | (_, fam) :: rest, n =>
      famRels fam n ++ buildRelGo rest (n + (famRels fam n).length)

/-- build_relationships: families in map-traversal (insertion) order, the
edge counter starting at 1 and shared by all edge types. -/
def build_relationships (fams : List (String × Family)) : List Relationship :=
  buildRelGo fams 1

/-- The edges of one family without sequential numbers (id left empty),
in emission order; used to state how the global numbering decomposes. -/
def famEdgeCores (fam : Family) : List Relationship :=
  (if truthyS fam.husband && truthyS fam.wife then [mkSpouse fam 0] else []) ++
  fam.children.flatMap (fun c => (parentsOf fam).map (fun p => mkPC p c 0))

/-- Stamp sequential ids r-formatted from n onto a list of edges. -/
def labelFrom (n : Nat) : List Relationship → List Relationship
  | [] => []
  | r :: rs => { r with id := "r" ++ fmt3 n } :: labelFrom (n + 1) rs

/-- create_id_mapping's loop, threading the 1-based enumeration counter. -/
def idMapGo : Nat → List Person → List (String × String) → List (String × String)
  | _, [], m => m
  | n, p :: ps, m =>
      idMapGo (n + 1) ps (dictInsert (stripAt p.ancestryId) ("p" ++ fmt3 n) m)

/-- create_id_mapping: old (stripped) ancestry id to new sequential id,
people enumerated from 1 in list order. -/
def create_id_mapping (people : List Person) : List (String × String) :=
  idMapGo 1 people []

/-- The inverted lookup table built in main: a dict comprehension over the
items of the mapping, swapping key and value (later duplicates of a value
would overwrite, as in Python). -/
def invertMapping (m : List (String × String)) : List (String × String) :=
  m.foldl (fun acc kv => dictInsert kv.2 kv.1 acc) []

/-- One rewrite step of remap_ids: rel.get(key) is truthy when the field
is present and non-empty; then the field is replaced by its mapping entry,
defaulting to the unchanged value (dict.get with default). -/
def remapP1 (m : List (String × String)) (r : Relationship) : Relationship :=
  match r.person1 with
  | some v => if v ≠ "" then { r with person1 := some ((alookup v m).getD v) } else r
  | none => r

def remapP2 (m : List (String × String)) (r : Relationship) : Relationship :=
  match r.person2 with
  | some v => if v ≠ "" then { r with person2 := some ((alookup v m).getD v) } else r
  | none => r

def remapParent (m : List (String × String)) (r : Relationship) : Relationship :=
  match r.parent with
  | some v => if v ≠ "" then { r with parent := some ((alookup v m).getD v) } else r
  | none => r

def remapChild (m : List (String × String)) (r : Relationship) : Relationship :=
  match r.child with
  | some v => if v ≠ "" then { r with child := some ((alookup v m).getD v) } else r
  | none => r

/-- The relationship-rewrite body of remap_ids: the four reference fields
rewritten in the order of the source. -/
def remapRel (m : List (String × String)) (r : Relationship) : Relationship :=
  remapChild m (remapParent m (remapP2 m (remapP1 m r)))

/-- The relationship pass of remap_ids over the whole list. -/
def remap_relationships (m : List (String × String))
    (rels : List Relationship) : List Relationship :=
  rels.map (remapRel m)

/-! ## Theorems -/

theorem splitGiven_maidenName (g : String) (p : Person) :
    (splitGiven g p).maidenName = p.maidenName := by
  unfold splitGiven
  dsimp only
  split <;> rfl

theorem splitGiven_profilePhoto (g : String) (p : Person) :
    (splitGiven g p).profilePhoto = p.profilePhoto := by
  unfold splitGiven
  dsimp only
  split <;> rfl

theorem splitGiven_lastName (g : String) (p : Person) :
    (splitGiven g p).lastName = p.lastName := by
  unfold splitGiven
  dsimp only
  split <;> rfl

theorem applyName_maidenName (e : RawEntry) (p : Person) :
    (applyName e p).maidenName = p.maidenName := by
  unfold applyName
  (repeat' split) <;> simp [splitGiven_maidenName]

theorem applyName_profilePhoto (e : RawEntry) (p : Person) :
    (applyName e p).profilePhoto = p.profilePhoto := by
  unfold applyName
  (repeat' split) <;> simp [splitGiven_profilePhoto]

theorem applyName_lastName_of_no_surname (e : RawEntry) (p : Person)
    (h : findSurname e.value.data = none) :
    (applyName e p).lastName = p.lastName := by
  unfold applyName
  rw [h]
  (repeat' split) <;> simp_all [splitGiven_lastName]

theorem nameStage_maidenName (raw : List (String × List RawEntry)) (p : Person) :
    (nameStage raw p).maidenName = p.maidenName := by
  unfold nameStage
  (repeat' split) <;> simp [applyName_maidenName]

theorem nameStage_profilePhoto (raw : List (String × List RawEntry)) (p : Person) :
    (nameStage raw p).profilePhoto = p.profilePhoto := by
  unfold nameStage
  (repeat' split) <;> simp [applyName_profilePhoto]

theorem sexStage_fields (raw : List (String × List RawEntry)) (p : Person) :
    (sexStage raw p).firstName = p.firstName ∧
    (sexStage raw p).lastName = p.lastName ∧
    (sexStage raw p).maidenName = p.maidenName ∧
    (sexStage raw p).profilePhoto = p.profilePhoto := by
  unfold sexStage
  (repeat' split) <;> exact ⟨rfl, rfl, rfl, rfl⟩

theorem birthStage_fields (raw : List (String × List RawEntry)) (p : Person) :
    (birthStage raw p).firstName = p.firstName ∧
    (birthStage raw p).lastName = p.lastName ∧
    (birthStage raw p).maidenName = p.maidenName ∧
    (birthStage raw p).profilePhoto = p.profilePhoto := by
  unfold birthStage
  (repeat' split) <;> exact ⟨rfl, rfl, rfl, rfl⟩

theorem deathStage_fields (raw : List (String × List RawEntry)) (p : Person) :
    (deathStage raw p).firstName = p.firstName ∧
    (deathStage raw p).lastName = p.lastName ∧
    (deathStage raw p).maidenName = p.maidenName ∧
    (deathStage raw p).profilePhoto = p.profilePhoto := by
  unfold deathStage
  (repeat' split) <;> exact ⟨rfl, rfl, rfl, rfl⟩

theorem noteStage_fields (raw : List (String × List RawEntry)) (p : Person) :
    (noteStage raw p).firstName = p.firstName ∧
    (noteStage raw p).lastName = p.lastName ∧
    (noteStage raw p).maidenName = p.maidenName ∧
    (noteStage raw p).profilePhoto = p.profilePhoto := by
  unfold noteStage
  dsimp only
  (repeat' split) <;> exact ⟨rfl, rfl, rfl, rfl⟩

theorem resiStage_fields (raw : List (String × List RawEntry)) (p : Person) :
    (resiStage raw p).firstName = p.firstName ∧
    (resiStage raw p).lastName = p.lastName ∧
    (resiStage raw p).maidenName = p.maidenName ∧
    (resiStage raw p).profilePhoto = p.profilePhoto := by
  unfold resiStage
  (repeat' split) <;> exact ⟨rfl, rfl, rfl, rfl⟩

/-- C9: for every input INDI record, the extracted person's maidenName and
profilePhoto are none: extract_person initialises them to none and no
branch ever assigns them, even though the output schema declares the
fields. -/
theorem extract_person_maidenName_profilePhoto_none (indi : RawRec) :
    (extract_person indi).maidenName = none ∧
    (extract_person indi).profilePhoto = none := by
  unfold extract_person
  dsimp only
  constructor
  · show (famStage _ _).maidenName = none
    rw [show ∀ q, (famStage indi.raw q).maidenName = q.maidenName from fun _ => rfl,
        (resiStage_fields _ _).2.2.1, (noteStage_fields _ _).2.2.1,
        (deathStage_fields _ _).2.2.1, (birthStage_fields _ _).2.2.1,
        (sexStage_fields _ _).2.2.1, nameStage_maidenName]
  · show (famStage _ _).profilePhoto = none
    rw [show ∀ q, (famStage indi.raw q).profilePhoto = q.profilePhoto from fun _ => rfl,
        (resiStage_fields _ _).2.2.2, (noteStage_fields _ _).2.2.2,
        (deathStage_fields _ _).2.2.2, (birthStage_fields _ _).2.2.2,
        (sexStage_fields _ _).2.2.2, nameStage_profilePhoto]

/-- C6: firstName and lastName are plain strings (the Person embedding
gives them type String, never an optional), and when the NAME data is
absent both default to the empty string; additionally, when a NAME line
exists but carries no slash-delimited surname segment, lastName still
defaults to the empty string. -/
theorem extract_person_name_defaults (indi : RawRec) :
    (alookup "NAME" indi.raw = none →
      (extract_person indi).firstName = "" ∧
      (extract_person indi).lastName = "") ∧
    (∀ e es, alookup "NAME" indi.raw = some (e :: es) →
      findSurname e.value.data = none →
      (extract_person indi).lastName = "") := by
  unfold extract_person
  dsimp only
  constructor
  · intro h
    constructor
    · show (famStage _ _).firstName = ""
      rw [show ∀ q, (famStage indi.raw q).firstName = q.firstName from fun _ => rfl,
          (resiStage_fields _ _).1, (noteStage_fields _ _).1,
          (deathStage_fields _ _).1, (birthStage_fields _ _).1,
          (sexStage_fields _ _).1]
      unfold nameStage
      rw [h]
    · show (famStage _ _).lastName = ""
      rw [show ∀ q, (famStage indi.raw q).lastName = q.lastName from fun _ => rfl,
          (resiStage_fields _ _).2.1, (noteStage_fields _ _).2.1,
          (deathStage_fields _ _).2.1, (birthStage_fields _ _).2.1,
          (sexStage_fields _ _).2.1]
      unfold nameStage
      rw [h]
  · intro e es hname hsn
    show (famStage _ _).lastName = ""
    rw [show ∀ q, (famStage indi.raw q).lastName = q.lastName from fun _ => rfl,
        (resiStage_fields _ _).2.1, (noteStage_fields _ _).2.1,
        (deathStage_fields _ _).2.1, (birthStage_fields _ _).2.1,
        (sexStage_fields _ _).2.1]
    unfold nameStage
    rw [hname, applyName_lastName_of_no_surname _ _ hsn]

/-- Witness for C6 at a concrete record with no NAME data. -/
theorem extract_person_name_defaults_witness :
    (extract_person ⟨"INDI", "@I1@", [("SEX", [⟨"M", []⟩])]⟩).firstName = "" ∧
    (extract_person ⟨"INDI", "@I1@", [("SEX", [⟨"M", []⟩])]⟩).lastName = "" :=
  (extract_person_name_defaults ⟨"INDI", "@I1@", [("SEX", [⟨"M", []⟩])]⟩).1
    (by decide)

/-- C3: the date normalizer's behaviour on the spec's examples, and on
empty or absent input.  The embedding of format_date is a total function,
which reflects that the source catches every ValueError and never raises:
the unparseable "Spring 1888" falls back to the verbatim input with an
empty qualifier. -/
theorem format_date_examples :
    format_date (some "15 Mar 1892") = some "March 15, 1892" ∧
    format_date (some "ABT 1850") = some "circa 1850" ∧
    format_date (some "MAR 1900") = some "March 1900" ∧
    format_date (some "BEF 12 Jan 1920") = some "before January 12, 1920" ∧
    format_date (some "Spring 1888") = some "Spring 1888" ∧
    format_date none = none ∧
    format_date (some "") = none := by
  decide

/-- C7: in the relationship-rewrite pass of remap_ids, each of the fields
person1, person2, parent and child whose value has no entry in the
identifier map passes through unchanged (the source uses dict.get with the
old value as default); the rewrite is total, so a dangling reference never
fails. -/
theorem remapRel_dangling_unchanged (m : List (String × String))
    (r : Relationship) (v : String) (hv : alookup v m = none) :
    (r.person1 = some v → (remapRel m r).person1 = some v) ∧
    (r.person2 = some v → (remapRel m r).person2 = some v) ∧
    (r.parent = some v → (remapRel m r).parent = some v) ∧
    (r.child = some v → (remapRel m r).child = some v) := by
  have h1 : ∀ s, (remapP1 m s).person2 = s.person2 ∧
      (remapP1 m s).parent = s.parent ∧ (remapP1 m s).child = s.child := by
    intro s
    unfold remapP1
    (repeat' split) <;> exact ⟨rfl, rfl, rfl⟩
  have h2 : ∀ s, (remapP2 m s).person1 = s.person1 ∧
      (remapP2 m s).parent = s.parent ∧ (remapP2 m s).child = s.child := by
    intro s
    unfold remapP2
    (repeat' split) <;> exact ⟨rfl, rfl, rfl⟩
  have h3 : ∀ s, (remapParent m s).person1 = s.person1 ∧
      (remapParent m s).person2 = s.person2 ∧ (remapParent m s).child = s.child := by
    intro s
    unfold remapParent
    (repeat' split) <;> exact ⟨rfl, rfl, rfl⟩
  have h4 : ∀ s, (remapChild m s).person1 = s.person1 ∧
      (remapChild m s).person2 = s.person2 ∧ (remapChild m s).parent = s.parent := by
    intro s
    unfold remapChild
    (repeat' split) <;> exact ⟨rfl, rfl, rfl⟩
  have fix : ∀ w, alookup w m = none → (alookup w m).getD w = w := by
    intro w hw
    rw [hw]
    rfl
  refine ⟨?_, ?_, ?_, ?_⟩ <;> intro hf
  · rw [remapRel, (h4 _).1, (h3 _).1, (h2 _).1]
    unfold remapP1
    rw [hf]
    dsimp only
    split_ifs
    · simp [fix v hv]
    · exact hf
  · rw [remapRel, (h4 _).2.1, (h3 _).2.1]
    unfold remapP2
    rw [(h1 _).1, hf]
    dsimp only
    split_ifs
    · simp [fix v hv]
    · exact (h1 _).1.trans hf
  · rw [remapRel, (h4 _).2.2]
    unfold remapParent
    rw [(h2 _).2.1, (h1 _).2.1, hf]
    dsimp only
    split_ifs
    · simp [fix v hv]
    · exact ((h2 _).2.1.trans (h1 _).2.1).trans hf
  · rw [remapRel]
    unfold remapChild
    rw [(h3 _).2.2, (h2 _).2.2, (h1 _).2.2, hf]
    dsimp only
    split_ifs
    · simp [fix v hv]
    · exact (((h3 _).2.2.trans (h2 _).2.2).trans (h1 _).2.2).trans hf

/-- Witness for C7 at a concrete mapping and edge with a dangling child. -/
theorem remapRel_dangling_unchanged_witness :
    (remapRel [("I1", "p001")]
      { id := "r001", rtype := "parent-child", person1 := none,
        person2 := none, marriageDate := none, marriagePlace := none,
        divorceDate := none, parent := some "I1", child := some "I9" }).child =
      some "I9" :=
  (remapRel_dangling_unchanged [("I1", "p001")]
    { id := "r001", rtype := "parent-child", person1 := none,
      person2 := none, marriageDate := none, marriagePlace := none,
      divorceDate := none, parent := some "I1", child := some "I9" }
    "I9" (by decide)).2.2.2 (by decide)

theorem labelFrom_append (n : Nat) (a b : List Relationship) :
    labelFrom n (a ++ b) = labelFrom n a ++ labelFrom (n + a.length) b := by
  induction a generalizing n with
  | nil => simp [labelFrom]
  | cons r rs ih =>
      simp only [List.cons_append, labelFrom, List.append_eq, ih (n + 1),
        List.length_cons]
      have h : n + 1 + rs.length = n + (rs.length + 1) := by omega
      rw [h]

theorem labelFrom_length (n : Nat) (l : List Relationship) :
    (labelFrom n l).length = l.length := by
  induction l generalizing n with
  | nil => rfl
  | cons r rs ih => simp [labelFrom, ih]

theorem pcInner_eq (c : String) (ps : List String) (n : Nat) :
    pcInner c ps n = labelFrom n (ps.map (fun p => mkPC p c 0)) := by
  induction ps generalizing n with
  | nil => rfl
  | cons p ps ih => simp only [pcInner, List.map_cons, labelFrom, ih (n + 1)]; rfl

theorem pcEdges_eq (parents : List String) (cs : List String) (n : Nat) :
    pcEdges parents cs n =
      labelFrom n (cs.flatMap (fun c => parents.map (fun p => mkPC p c 0))) := by
  induction cs generalizing n with
  | nil => rfl
  | cons c cs ih =>
      simp only [pcEdges, List.flatMap_cons, labelFrom_append, ih,
        pcInner_eq, List.length_map]

theorem famRels_eq (fam : Family) (n : Nat) :
    famRels fam n = labelFrom n (famEdgeCores fam) := by
  unfold famRels famEdgeCores
  dsimp only
  by_cases h : (truthyS fam.husband && truthyS fam.wife) = true
  · rw [if_pos h, if_pos h]
    simp only [List.singleton_append, List.length_cons, List.length_nil,
      List.cons_append, List.nil_append, labelFrom, pcEdges_eq]
    rfl
  · rw [if_neg h, if_neg h]
    simp only [List.nil_append, List.length_nil, Nat.add_zero, pcEdges_eq]

theorem buildRelGo_eq (fams : List (String × Family)) (n : Nat) :
    buildRelGo fams n =
      labelFrom n (fams.flatMap (fun p => famEdgeCores p.2)) := by
  induction fams generalizing n with
  | nil => rfl
  | cons pf rest ih =>
      obtain ⟨fid, fam⟩ := pf
      simp only [buildRelGo, List.flatMap_cons, labelFrom_append, ih,
        famRels_eq, labelFrom_length]

theorem labelFrom_map_id (n : Nat) (l : List Relationship) :
    (labelFrom n l).map (fun r => r.id) =
      (List.range l.length).map (fun k => "r" ++ fmt3 (n + k)) := by
  induction l generalizing n with
  | nil => rfl
  | cons r rs ih =>
      have hf : ((fun k => "r" ++ fmt3 (n + k)) ∘ Nat.succ) =
          (fun k => "r" ++ fmt3 (n + 1 + k)) := by
        funext k
        have h : n + Nat.succ k = n + 1 + k := by omega
        simp only [Function.comp_apply, h]
      simp only [labelFrom, List.map_cons, List.length_cons,
        List.range_succ_eq_map, List.map_map, hf, ih (n + 1), Nat.add_zero]

/-- C4: build_relationships assigns sequential ids r001, r002, ... globally
in emission order: the result is exactly the per-family edge cores,
concatenated in family-map traversal order (spouse edge first when both
spouses are present, then parent-child edges with children outer and the
husband-slot parent before the wife-slot parent), labelled with
consecutive r-ids starting at 1; in particular the k-th emitted edge
(0-based) carries id r-formatted (k+1), with a single counter shared by
both edge types. -/
theorem build_relationships_order (fams : List (String × Family)) :
    build_relationships fams =
      labelFrom 1 (fams.flatMap (fun p => famEdgeCores p.2)) ∧
    (build_relationships fams).map (fun r => r.id) =
      (List.range (fams.flatMap (fun p => famEdgeCores p.2)).length).map
        (fun k => "r" ++ fmt3 (k + 1)) := by
  constructor
  · exact buildRelGo_eq fams 1
  · rw [build_relationships, buildRelGo_eq, labelFrom_map_id]
    have h : (fun k => "r" ++ fmt3 (1 + k)) = (fun k => "r" ++ fmt3 (k + 1)) := by
      funext k
      rw [Nat.add_comm]
    rw [h]

theorem countP_spouse_pcInner (c : String) (ps : List String) (n : Nat) :
    (pcInner c ps n).countP (fun r => r.rtype == "spouse") = 0 := by
  induction ps generalizing n with
  | nil => rfl
  | cons p ps ih => simp [pcInner, List.countP_cons, mkPC, ih]

theorem countP_spouse_pcEdges (ps cs : List String) (n : Nat) :
    (pcEdges ps cs n).countP (fun r => r.rtype == "spouse") = 0 := by
  induction cs generalizing n with
  | nil => rfl
  | cons c cs ih => simp [pcEdges, List.countP_append, countP_spouse_pcInner, ih]

theorem countP_labelFrom (p : Relationship → Bool)
    (hp : ∀ r s, p { r with id := s } = p r) (n : Nat) (l : List Relationship) :
    (labelFrom n l).countP p = l.countP p := by
  induction l generalizing n with
  | nil => rfl
  | cons r rs ih => simp [labelFrom, List.countP_cons, hp, ih]

theorem countP_pcChild_cores (hs ws c : String) (children : List String) :
    (children.flatMap (fun q => [mkPC hs q 0, mkPC ws q 0])).countP
        (fun r => r.rtype == "parent-child" && r.child == some c) =
      2 * children.count c := by
  induction children with
  | nil => rfl
  | cons q qs ih =>
      have hpq : ∀ x : String,
          ((fun r => r.rtype == "parent-child" && r.child == some c)
            (mkPC x q 0)) = (q == c) := by
        intro x
        simp [mkPC]
      simp only [List.flatMap_cons, List.countP_append, List.countP_cons,
        List.countP_nil, hpq, List.count_cons, ih]
      split_ifs <;> omega

/-- C5: for every family, the edges emitted by the relationship builder's
per-family loop body contain exactly one spouse edge when both husband and
wife are present (non-empty), none when neither is; and when both parents
are present the parent-child portion is, per child occurrence, exactly the
pair of edges husband-to-child then wife-to-child, so each child with two
parents gets exactly two parent-child edges carrying the same child id. -/
theorem build_relationships_per_family (fam : Family) (n : Nat) :
    (truthyS fam.husband = true → truthyS fam.wife = true →
      (famRels fam n).countP (fun r => r.rtype == "spouse") = 1) ∧
    (truthyS fam.husband = false → truthyS fam.wife = false →
      (famRels fam n).countP (fun r => r.rtype == "spouse") = 0) ∧
    (∀ hs ws, fam.husband = some hs → hs ≠ "" → fam.wife = some ws → ws ≠ "" →
      famRels fam n = mkSpouse fam n ::
        labelFrom (n + 1)
          (fam.children.flatMap (fun c => [mkPC hs c 0, mkPC ws c 0])) ∧
      (∀ c, (famRels fam n).countP
            (fun r => r.rtype == "parent-child" && r.child == some c) =
          2 * fam.children.count c)) := by
  refine ⟨?_, ?_, ?_⟩
  · intro hh hw
    unfold famRels
    rw [hh, hw]
    simp only [Bool.and_self, if_pos]
    simp [List.countP_cons, mkSpouse, countP_spouse_pcEdges]
  · intro hh _
    unfold famRels
    rw [hh]
    simp only [Bool.false_and, if_neg Bool.false_ne_true]
    simp [countP_spouse_pcEdges]
  · intro hs ws hhs hne hws wne
    have hstruct : famRels fam n = mkSpouse fam n ::
        labelFrom (n + 1)
          (fam.children.flatMap (fun c => [mkPC hs c 0, mkPC ws c 0])) := by
      unfold famRels
      have hh : truthyS fam.husband = true := by simp [truthyS, hhs, hne]
      have hw : truthyS fam.wife = true := by simp [truthyS, hws, wne]
      rw [hh, hw]
      simp only [Bool.and_self, if_pos, List.singleton_append,
        List.length_cons, List.length_nil, List.cons_append, List.nil_append]
      have hp : parentsOf fam = [hs, ws] := by
        unfold parentsOf
        rw [hhs, hws]
        simp [hne, wne]
      rw [pcEdges_eq, hp]
      rfl
    refine ⟨hstruct, ?_⟩
    intro c
    rw [hstruct]
    have hspouse : ((fun r => r.rtype == "parent-child" && r.child == some c)
        (mkSpouse fam n)) = false := by
      simp [mkSpouse]
    rw [List.countP_cons_of_neg _ _ (by simp [hspouse])]
    rw [countP_labelFrom (fun r => r.rtype == "parent-child" && r.child == some c)
        (fun r s => rfl), countP_pcChild_cores]

/-- Witness for C5 at a concrete two-parent, one-child family. -/
theorem build_relationships_per_family_witness :
    (famRels { id := "F1", husband := some "I1", wife := some "I2",
               children := ["I3"], marriageDate := none,
               marriagePlace := none, divorceDate := none,
               ancestryId := "@F1@" } 1).countP
        (fun r => r.rtype == "spouse") = 1 ∧
    (famRels { id := "F1", husband := some "I1", wife := some "I2",
               children := ["I3"], marriageDate := none,
               marriagePlace := none, divorceDate := none,
               ancestryId := "@F1@" } 1).countP
        (fun r => r.rtype == "parent-child" && r.child == some "I3") = 2 := by
  constructor
  · exact (build_relationships_per_family _ 1).1 (by decide) (by decide)
  · exact (((build_relationships_per_family _ 1).2.2 "I1" "I2" rfl
      (by decide) rfl (by decide)).2 "I3").trans (by decide)

theorem mkString_ne_empty (l : List Char) (h : ¬ l.isEmpty = true) :
    String.mk l ≠ "" := by
  intro hc
  rw [String.ext_iff] at hc
  simp only [String.data] at hc
  simp [hc] at h

theorem tagRest_tag_ne (level : Nat) (xref : Option String) (cs : List Char)
    (t : Token) (h : tagRest level xref cs = some t) : t.tag ≠ "" := by
  unfold tagRest at h
  dsimp only at h
  split_ifs at h with he
  injection h with h2
  subst h2
  exact mkString_ne_empty _ he

theorem tokenize_tag_ne (cs : List Char) (t : Token)
    (h : tokenize cs = some t) : t.tag ≠ "" := by
  unfold tokenize at h
  dsimp only at h
  split_ifs at h with h1 h2
  revert h
  (repeat' split) <;> intro h <;>
    first
      | exact tagRest_tag_ne _ _ _ _ h
      | (rename_i heq
         injection h with h2
         subst h2
         exact tagRest_tag_ne _ _ _ _ heq)

theorem lookAheadCollect_skip (lvl : Nat) (l : String)
    (hl : tokenize (pyStrip l).data = none) (post : List String) :
    ∀ pre sub, lookAheadCollect lvl (pre ++ l :: post) sub =
      lookAheadCollect lvl (pre ++ post) sub := by
  intro pre
  induction pre with
  | nil => intro sub; simp [lookAheadCollect, hl]
  | cons x pre ih =>
      intro sub
      cases hx : tokenize (pyStrip x).data with
      | none => simp [lookAheadCollect, hx, ih]
      | some t =>
          simp only [List.cons_append, lookAheadCollect, hx]
          split_ifs <;> simp [ih]

theorem step_congr (t : Token) (r1 r2 : List String) (st : PState)
    (h : lookAheadCollect t.level r1 [] = lookAheadCollect t.level r2 []) :
    step t r1 st = step t r2 st := by
  by_cases h0 : t.level = 0
  · simp [step, h0]
  · simp only [step, h0, if_false]
    cases hcur : st.current with
    | none => rfl
    | some c => rw [h]

theorem buildRecords_skip (l : String)
    (hl : tokenize (pyStrip l).data = none) (post : List String) :
    ∀ pre st, buildRecords (pre ++ l :: post) st =
      buildRecords (pre ++ post) st := by
  intro pre
  induction pre with
  | nil => intro st; simp [buildRecords, hl]
  | cons x pre ih =>
      intro st
      cases hx : tokenize (pyStrip x).data with
      | none => simp [buildRecords, hx, ih]
      | some t =>
          simp only [List.cons_append, buildRecords, hx, List.append_eq]
          rw [step_congr t (pre ++ l :: post) (pre ++ post) st
                (lookAheadCollect_skip t.level l hl post pre []),
              ih]

/-- C8: every token the line grammar accepts has a non-negative level (a
natural number in the embedding, as produced by int() on a digit run) and
a non-empty tag; and a line that the grammar rejects produces no token,
raises nothing (the builder is total), and is invisible to the record
builder: deleting it anywhere changes neither the records nor any
look-ahead-collected sub-tag entries. -/
theorem tokenizer_grammar_invariants :
    (∀ cs t, tokenize cs = some t → 0 ≤ t.level ∧ t.tag ≠ "") ∧
    (∀ l, tokenize (pyStrip l).data = none →
      ∀ pre post st, buildRecords (pre ++ l :: post) st =
        buildRecords (pre ++ post) st) := by
  constructor
  · intro cs t h
    exact ⟨Nat.zero_le _, tokenize_tag_ne cs t h⟩
  · intro l hl pre post st
    exact buildRecords_skip l hl post pre st

/-- Witness for C8: a concrete accepted token, and a concrete malformed
line (no level digits) vanishing from a concrete parse. -/
theorem tokenizer_grammar_invariants_witness :
    (0 ≤ (Token.mk 1 none "SEX" "M").level ∧ (Token.mk 1 none "SEX" "M").tag ≠ "") ∧
    buildRecords (["0 @I1@ INDI"] ++ "NOTE not a gedcom line" :: ["1 SEX M"])
        initState =
      buildRecords (["0 @I1@ INDI"] ++ ["1 SEX M"]) initState := by
  constructor
  · exact tokenizer_grammar_invariants.1 "1 SEX M".data ⟨1, none, "SEX", "M"⟩
      (by decide)
  · exact tokenizer_grammar_invariants.2 "NOTE not a gedcom line" (by decide)
      ["0 @I1@ INDI"] ["1 SEX M"] initState

theorem aupdate_keys {K V : Type} [DecidableEq K] (k : K) (f : V → V)
    (m : List (K × V)) : (aupdate k f m).map Prod.fst = m.map Prod.fst := by
  induction m with
  | nil => rfl
  | cons kv rest ih =>
      obtain ⟨k', v⟩ := kv
      unfold aupdate
      split_ifs <;> simp [ih]

theorem aupdate_id {K V : Type} [DecidableEq K] (k : K) (m : List (K × V)) :
    aupdate k (fun v => v) m = m := by
  induction m with
  | nil => rfl
  | cons kv rest ih =>
      obtain ⟨k', v⟩ := kv
      unfold aupdate
      split_ifs with h
      · subst h
        rfl
      · rw [ih]

theorem aupdate_comp {K V : Type} [DecidableEq K] (k : K) (f g : V → V)
    (m : List (K × V)) :
    aupdate k f (aupdate k g m) = aupdate k (fun v => f (g v)) m := by
  induction m with
  | nil => rfl
  | cons kv rest ih =>
      obtain ⟨k', v⟩ := kv
      unfold aupdate
      split_ifs with h
      · subst h
        simp [aupdate]
      · simp [aupdate, h, ih]

theorem dictInsert_aupdate {K V : Type} [DecidableEq K] (k : K) (v : V)
    (f : V → V) (m : List (K × V)) :
    dictInsert k v (aupdate k f m) = dictInsert k v m := by
  induction m with
  | nil => rfl
  | cons kv rest ih =>
      obtain ⟨k', w⟩ := kv
      unfold aupdate dictInsert
      split_ifs with h
      · subst h
        simp [dictInsert]
      · simp [dictInsert, h, ih]

theorem dictInsert_dictInsert {K V : Type} [DecidableEq K] (k : K) (v : V)
    (m : List (K × V)) : dictInsert k v (dictInsert k v m) = dictInsert k v m := by
  induction m with
  | nil => simp [dictInsert]
  | cons kv rest ih =>
      obtain ⟨k', w⟩ := kv
      unfold dictInsert
      split_ifs with h
      · subst h
        simp [dictInsert]
      · simp [dictInsert, h, ih]

theorem updateMap_current (ty x : String) (f : RawRec → RawRec) (st : PState) :
    (updateMap ty x f st).current = st.current := by
  unfold updateMap
  split_ifs <;> rfl

theorem updateMap_id (ty x : String) (st : PState) :
    updateMap ty x (fun r => r) st = st := by
  unfold updateMap
  split_ifs <;> simp [aupdate_id]

theorem updateMap_comp (ty x : String) (f g : RawRec → RawRec) (st : PState) :
    updateMap ty x f (updateMap ty x g st) =
      updateMap ty x (fun r => f (g r)) st := by
  unfold updateMap
  split_ifs <;> simp [aupdate_comp]

/-- C1 (amended): the sub-tag look-ahead does not consume lines from the
outer iteration (the outer pass is structural over all lines and the
look-ahead only reads the remaining-lines argument), and a line at level
greater than zero never opens a new top-level record regardless of its tag
(the current pointer and the key sets of all three record maps are
unchanged); with no open record its handling is a no-op; but with an open
record the handling is NOT a no-op on the record being built: the deeper
line is appended to the open record as a fresh entry under its own tag,
in addition to the look-ahead's capture of it into the parent entry's
sub map. -/
theorem deeper_line_handling (t : Token) (rest : List String) (st : PState)
    (hlvl : 0 < t.level) :
    (step t rest st).current = st.current ∧
    (step t rest st).individuals.map Prod.fst = st.individuals.map Prod.fst ∧
    (step t rest st).families.map Prod.fst = st.families.map Prod.fst ∧
    (step t rest st).sources.map Prod.fst = st.sources.map Prod.fst ∧
    (st.current = none → step t rest st = st) ∧
    (∀ ty x, st.current = some (ty, x) →
      step t rest st = updateMap ty x
        (fun r => { r with raw := (appendAt t.tag
            ⟨t.value, lookAheadCollect t.level rest []⟩ r.raw) }) st) := by
  have h0 : ¬ t.level = 0 := by omega
  cases hcur : st.current with
  | none =>
      simp [step, h0, hcur]
  | some c =>
      obtain ⟨ty, x⟩ := c
      have hstep : step t rest st = updateMap ty x
          (fun r => { r with raw := (appendAt t.tag
              ⟨t.value, lookAheadCollect t.level rest []⟩ r.raw) }) st := by
        simp [step, h0, hcur]
      refine ⟨?_, ?_, ?_, ?_, ?_, ?_⟩
      · rw [hstep, updateMap_current]
        exact hcur
      · rw [hstep]
        unfold updateMap
        split_ifs <;> first | rfl | simp [aupdate_keys]
      · rw [hstep]
        unfold updateMap
        split_ifs <;> first | rfl | simp [aupdate_keys]
      · rw [hstep]
        unfold updateMap
        split_ifs <;> first | rfl | simp [aupdate_keys]
      · intro hnone
        cases hnone
      · intro ty' x' hcur'
        injection hcur' with hp
        cases hp
        exact hstep

/-- Counterexample for C1 as stated: on the input below, the outer pass's
handling of the already-captured level-2 DATE line is not a no-op — the
record being built receives an extra top-level DATE entry in addition to
the DATE value captured into the BIRT entry's sub map, so the record does
change. -/
theorem deeper_line_handling_counterexample :
    (parse_gedcom ["0 @I1@ INDI", "1 BIRT", "2 DATE 1900"]).individuals =
      [("@I1@", ⟨"INDI", "@I1@",
        [("BIRT", [⟨"", [("DATE", ["1900"])]⟩]),
         ("DATE", [⟨"1900", []⟩])]⟩)] ∧
    (alookup "@I1@"
        (parse_gedcom ["0 @I1@ INDI", "1 BIRT", "2 DATE 1900"]).individuals).map
      (fun r => (alookup "DATE" r.raw).isSome) = some true := by
  decide

/-- Witness for C1 (amended) at a concrete deeper line and open record. -/
theorem deeper_line_handling_witness :
    (step ⟨2, none, "DATE", "1900"⟩ []
        ⟨[("@I1@", ⟨"INDI", "@I1@", []⟩)], [], [], some ("INDI", "@I1@")⟩).current =
      some ("INDI", "@I1@") ∧
    (step ⟨2, none, "DATE", "1900"⟩ []
        ⟨[("@I1@", ⟨"INDI", "@I1@", []⟩)], [], [], some ("INDI", "@I1@")⟩).individuals.map
        Prod.fst = ["@I1@"] :=
  ⟨(deeper_line_handling ⟨2, none, "DATE", "1900"⟩ []
      ⟨[("@I1@", ⟨"INDI", "@I1@", []⟩)], [], [], some ("INDI", "@I1@")⟩
      (by decide)).1,
   (deeper_line_handling ⟨2, none, "DATE", "1900"⟩ []
      ⟨[("@I1@", ⟨"INDI", "@I1@", []⟩)], [], [], some ("INDI", "@I1@")⟩
      (by decide)).2.1⟩

theorem lookAheadCollect_stop (lvl : Nat) (l0 : String) (t0 : Token)
    (h0 : tokenize (pyStrip l0).data = some t0) (hl : t0.level = 0)
    (rest : List String) :
    ∀ body sub, lookAheadCollect lvl (body ++ l0 :: rest) sub =
      lookAheadCollect lvl body sub := by
  intro body
  induction body with
  | nil =>
      intro sub
      simp [lookAheadCollect, h0, hl]
  | cons x body ih =>
      intro sub
      cases hx : tokenize (pyStrip x).data with
      | none => simp [lookAheadCollect, hx, ih]
      | some t =>
          simp only [List.cons_append, lookAheadCollect, hx]
          split_ifs <;> simp [ih]

theorem buildRecords_split (l0 : String) (t0 : Token)
    (h0 : tokenize (pyStrip l0).data = some t0) (hl : t0.level = 0)
    (rest : List String) :
    ∀ body st, buildRecords (body ++ l0 :: rest) st =
      buildRecords (l0 :: rest) (buildRecords body st) := by
  intro body
  induction body with
  | nil => intro st; rfl
  | cons x body ih =>
      intro st
      cases hx : tokenize (pyStrip x).data with
      | none => simp [buildRecords, hx, ih]
      | some t =>
          simp only [List.cons_append, buildRecords, hx, List.append_eq]
          rw [step_congr t (body ++ l0 :: rest) body st
                (lookAheadCollect_stop t.level l0 t0 h0 hl rest body []),
              ih]
          simp [buildRecords, h0]

theorem openRec_current (ty x : String) (st : PState)
    (hT : ty = "INDI" ∨ ty = "FAM" ∨ ty = "SOUR") :
    (openRec ty x st).current = some (ty, x) := by
  rcases hT with h | h | h <;> subst h <;> simp [openRec]

theorem openRec_updateMap (ty x : String) (f : RawRec → RawRec) (st : PState) :
    openRec ty x (updateMap ty x f st) = openRec ty x st := by
  by_cases hI : ty = "INDI"
  · subst hI
    simp [openRec, updateMap, dictInsert_aupdate]
  · by_cases hF : ty = "FAM"
    · subst hF
      simp [openRec, updateMap, dictInsert_aupdate]
    · by_cases hS : ty = "SOUR"
      · subst hS
        simp [openRec, updateMap, dictInsert_aupdate]
      · simp [openRec, updateMap, hI, hF, hS]

theorem openRec_openRec (ty x : String) (st : PState) :
    openRec ty x (openRec ty x st) = openRec ty x st := by
  by_cases hI : ty = "INDI"
  · subst hI
    simp [openRec, dictInsert_dictInsert]
  · by_cases hF : ty = "FAM"
    · subst hF
      simp [openRec, hI, dictInsert_dictInsert]
    · simp [openRec, hI, hF, dictInsert_dictInsert]

theorem buildRecords_body_update (ty x : String) :
    ∀ (body : List String) (st : PState), st.current = some (ty, x) →
      (∀ l ∈ body, ∀ tk, tokenize (pyStrip l).data = some tk → 0 < tk.level) →
      ∃ f, buildRecords body st = updateMap ty x f st := by
  intro body
  induction body with
  | nil =>
      intro st hcur hb
      exact ⟨fun r => r, (updateMap_id ty x st).symm⟩
  | cons l body ih =>
      intro st hcur hb
      cases hl : tokenize (pyStrip l).data with
      | none =>
          obtain ⟨f, hf⟩ := ih st hcur (fun l' hl' => hb l' (List.mem_cons_of_mem _ hl'))
          exact ⟨f, by simpa [buildRecords, hl] using hf⟩
      | some tk =>
          have hlvl : 0 < tk.level := hb l (List.mem_cons_self _ _) tk hl
          have h0 : ¬ tk.level = 0 := by omega
          have hstep : step tk body st = updateMap ty x
              (fun r => { r with raw := (appendAt tk.tag
                  ⟨tk.value, lookAheadCollect tk.level body []⟩ r.raw) }) st := by
            simp [step, h0, hcur]
          have hcur1 : (step tk body st).current = some (ty, x) := by
            rw [hstep, updateMap_current]
            exact hcur
          obtain ⟨f, hf⟩ := ih (step tk body st) hcur1
            (fun l' hl' => hb l' (List.mem_cons_of_mem _ hl'))
          refine ⟨fun r => f ({ r with raw := (appendAt tk.tag
              ⟨tk.value, lookAheadCollect tk.level body []⟩ r.raw) }), ?_⟩
          show buildRecords (l :: body) st = _
          simp only [buildRecords, hl]
          rw [hf, hstep, updateMap_comp]

/-- C10: when two level-0 lines open records of the same recognised type
(INDI, FAM or SOUR) under the same cross-reference id, the later opening
overwrites the earlier record in place: the final state is exactly as if
the earlier opening and its whole body (lines at level greater than zero)
had never been processed — the earlier record and all entries collected
into it are discarded (last-wins). -/
theorem same_id_last_wins (ol1 ol2 : String) (t1 t2 : Token) (x T : String)
    (h1 : tokenize (pyStrip ol1).data = some t1)
    (h2 : tokenize (pyStrip ol2).data = some t2)
    (hl1 : t1.level = 0) (hl2 : t2.level = 0)
    (hx1 : t1.xref = some x) (hx2 : t2.xref = some x)
    (ht1 : t1.tag = T) (ht2 : t2.tag = T)
    (hT : T = "INDI" ∨ T = "FAM" ∨ T = "SOUR")
    (body : List String)
    (hbody : ∀ l ∈ body, ∀ tk, tokenize (pyStrip l).data = some tk → 0 < tk.level)
    (rest : List String) (st : PState) :
    buildRecords (ol1 :: (body ++ ol2 :: rest)) st =
      buildRecords (ol2 :: rest) st := by
  have hstep1 : ∀ (st' : PState) (r' : List String),
      step t1 r' st' = openRec T x st' := by
    intro st' r'
    simp only [step, hl1, hx1, ht1]
    split_ifs <;>
      first
        | rfl
        | exact absurd hT (by assumption)
        | exact absurd trivial (by assumption)
  have hstep2 : ∀ (st' : PState) (r' : List String),
      step t2 r' st' = openRec T x st' := by
    intro st' r'
    simp only [step, hl2, hx2, ht2]
    split_ifs <;>
      first
        | rfl
        | exact absurd hT (by assumption)
        | exact absurd trivial (by assumption)
  simp only [buildRecords, h1]
  rw [hstep1]
  rw [buildRecords_split ol2 t2 h2 hl2 rest body (openRec T x st)]
  obtain ⟨f, hf⟩ := buildRecords_body_update T x body (openRec T x st)
    (openRec_current T x st hT) hbody
  rw [hf]
  simp only [buildRecords, h2]
  rw [hstep2, hstep2, openRec_updateMap, openRec_openRec]

/-- Witness for C10: the same INDI id opened twice; the first record and
its NAME entry are discarded. -/
theorem same_id_last_wins_witness :
    buildRecords ("0 @I1@ INDI" :: (["1 NAME A"] ++ "0 @I1@ INDI" :: ["1 SEX M"]))
        initState =
      buildRecords ("0 @I1@ INDI" :: ["1 SEX M"]) initState := by
  refine same_id_last_wins "0 @I1@ INDI" "0 @I1@ INDI"
    ⟨0, some "@I1@", "INDI", ""⟩ ⟨0, some "@I1@", "INDI", ""⟩ "@I1@" "INDI"
    (by decide) (by decide) rfl rfl rfl rfl rfl rfl (Or.inl rfl)
    ["1 NAME A"] ?_ ["1 SEX M"] initState
  intro l hl tk htk
  simp only [List.mem_singleton] at hl
  subst hl
  rw [show tokenize (pyStrip "1 NAME A").data = some ⟨1, none, "NAME", "A"⟩
      from by decide] at htk
  injection htk with h
  subst h
  decide

theorem decCharsCore_eq (f : Nat) :
    ∀ n, n ≤ f → decCharsCore f n = ((Nat.digits 10 n).reverse.map Nat.digitChar) := by
  induction f with
  | zero =>
      intro n h
      have : n = 0 := Nat.le_zero.mp h
      subst this
      simp [decCharsCore]
  | succ f ih =>
      intro n h
      by_cases h0 : n = 0
      · subst h0
        simp [decCharsCore]
      · have hlt : n / 10 ≤ f := by
          have := Nat.div_lt_self (Nat.pos_of_ne_zero h0) (by norm_num : 1 < 10)
          omega
        rw [decCharsCore, if_neg h0, ih (n / 10) hlt,
            Nat.digits_def' (by norm_num : (1 : Nat) < 10) (Nat.pos_of_ne_zero h0)]
        simp

theorem digitVal_digitChar (d : Nat) (hd : d < 10) :
    digitVal (Nat.digitChar d) = d := by
  interval_cases d <;> decide

theorem foldl_digitChars (l : List Nat) :
    ∀ a, (∀ d ∈ l, d < 10) →
      (l.reverse.map Nat.digitChar).foldl (fun acc c => 10 * acc + digitVal c) a =
        a * 10 ^ l.length + Nat.ofDigits 10 l := by
  induction l with
  | nil => intro a _; simp
  | cons d l ih =>
      intro a hl
      simp only [List.reverse_cons, List.map_append, List.foldl_append,
        List.map_cons, List.map_nil, List.foldl_cons, List.foldl_nil]
      rw [ih a (fun x hx => hl x (List.mem_cons_of_mem _ hx)),
          digitVal_digitChar d (hl d (List.mem_cons_self _ _)),
          Nat.ofDigits_cons, List.length_cons, pow_succ]
      ring

theorem strVal_decChars (n : Nat) : strVal (decChars n) = n := by
  unfold decChars
  by_cases h0 : n = 0
  · subst h0
    rfl
  · rw [if_neg h0, decCharsCore_eq n n le_rfl]
    unfold strVal
    rw [foldl_digitChars (Nat.digits 10 n) 0
        (fun d hd => Nat.digits_lt_base (by norm_num) hd)]
    simp [Nat.ofDigits_digits]

theorem strVal_zero_pad (k : Nat) (l : List Char) :
    strVal (List.replicate k '0' ++ l) = strVal l := by
  unfold strVal
  rw [List.foldl_append]
  have h : (List.replicate k '0').foldl (fun a c => 10 * a + digitVal c) 0 = 0 := by
    induction k with
    | zero => rfl
    | succ k ihk => simpa [List.replicate_succ] using ihk
  rw [h]

theorem strVal_fmt3 (n : Nat) : strVal (fmt3 n).data = n := by
  show strVal (List.replicate (3 - (decChars n).length) '0' ++ decChars n) = n
  rw [strVal_zero_pad, strVal_decChars]

theorem fmt3_inj {m n : Nat} (h : fmt3 m = fmt3 n) : m = n := by
  have hm := strVal_fmt3 m
  rw [h, strVal_fmt3] at hm
  omega

theorem pfmt_inj {m n : Nat} (h : "p" ++ fmt3 m = "p" ++ fmt3 n) : m = n := by
  apply fmt3_inj
  have hd := congrArg String.data h
  simp only [String.data_append] at hd
  exact String.ext_iff.mpr (List.append_cancel_left hd)

theorem dictInsert_not_mem {K V : Type} [DecidableEq K] (k : K) (v : V)
    (m : List (K × V)) (h : k ∉ m.map Prod.fst) :
    dictInsert k v m = m ++ [(k, v)] := by
  induction m with
  | nil => rfl
  | cons kv rest ih =>
      obtain ⟨k', w⟩ := kv
      simp only [List.map_cons, List.mem_cons, not_or] at h
      unfold dictInsert
      rw [if_neg (fun hc => h.1 hc.symm), ih h.2]
      rfl

theorem idMapGo_eq :
    ∀ (ps : List Person) (n : Nat) (m : List (String × String)),
      (∀ p ∈ ps, stripAt p.ancestryId ∉ m.map Prod.fst) →
      (ps.map (fun p => stripAt p.ancestryId)).Nodup →
      idMapGo n ps m = m ++ idPairs n ps := by
  intro ps
  induction ps with
  | nil => intro n m _ _; simp [idMapGo, idPairs]
  | cons p ps ih =>
      intro n m hdisj hnodup
      rw [idMapGo, dictInsert_not_mem _ _ _ (hdisj p (List.mem_cons_self _ _))]
      rw [List.map_cons, List.nodup_cons] at hnodup
      rw [ih (n + 1) (m ++ [(stripAt p.ancestryId, "p" ++ fmt3 n)]) ?_ hnodup.2]
      · simp [idPairs]
      · intro q hq
        simp only [List.map_append, List.mem_append, List.map_cons,
          List.map_nil, List.mem_singleton, not_or]
        refine ⟨hdisj q (List.mem_cons_of_mem _ hq), ?_⟩
        intro hc
        exact hnodup.1 (hc ▸ List.mem_map_of_mem (fun r => stripAt r.ancestryId) hq)

theorem create_id_mapping_eq (people : List Person)
    (hnodup : (people.map (fun p => stripAt p.ancestryId)).Nodup) :
    create_id_mapping people = idPairs 1 people := by
  rw [create_id_mapping, idMapGo_eq people 1 [] (by simp) hnodup]
  rfl

theorem idPairs_keys (ps : List Person) :
    ∀ n, (idPairs n ps).map Prod.fst = ps.map (fun p => stripAt p.ancestryId) := by
  induction ps with
  | nil => intro n; rfl
  | cons p ps ih => intro n; simp [idPairs, ih]

theorem pfmt_not_mem_idPairs (ps : List Person) :
    ∀ n q, q < n → ("p" ++ fmt3 q) ∉ (idPairs n ps).map Prod.snd := by
  induction ps with
  | nil => intro n q _; simp [idPairs]
  | cons p ps ih =>
      intro n q hq
      simp only [idPairs, List.map_cons, List.mem_cons, not_or]
      constructor
      · intro hc
        have := pfmt_inj hc
        omega
      · exact ih (n + 1) q (by omega)

theorem idPairs_values_nodup (ps : List Person) :
    ∀ n, ((idPairs n ps).map Prod.snd).Nodup := by
  induction ps with
  | nil => intro n; simp [idPairs]
  | cons p ps ih =>
      intro n
      simp only [idPairs, List.map_cons, List.nodup_cons]
      exact ⟨pfmt_not_mem_idPairs ps (n + 1) n (by omega), ih (n + 1)⟩

theorem alookup_idPairs (ps : List Person) :
    ∀ n k (hk : k < ps.length),
      (ps.map (fun p => stripAt p.ancestryId)).Nodup →
      alookup (stripAt (ps.get ⟨k, hk⟩).ancestryId) (idPairs n ps) =
        some ("p" ++ fmt3 (n + k)) := by
  induction ps with
  | nil => intro n k hk; simp at hk
  | cons p ps ih =>
      intro n k hk hnodup
      rw [List.map_cons, List.nodup_cons] at hnodup
      cases k with
      | zero =>
          simp [idPairs, alookup]
      | succ k =>
          have hk' : k < ps.length := by
            simpa using hk
          have hmem : stripAt ((ps.get ⟨k, hk'⟩)).ancestryId ∈
              ps.map (fun p => stripAt p.ancestryId) :=
            List.mem_map_of_mem _ (List.get_mem ps k hk')
          have hne : ¬ (stripAt p.ancestryId =
              stripAt ((ps.get ⟨k, hk'⟩)).ancestryId) := by
            intro hc
            exact hnodup.1 (hc ▸ hmem)
          show alookup (stripAt ((ps.get ⟨k, hk'⟩)).ancestryId) _ = _
          rw [idPairs, alookup, if_neg (by exact hne), ih (n + 1) k hk' hnodup.2]
          have : n + 1 + k = n + (k + 1) := by omega
          rw [this]

theorem invertMapping_eq (m : List (String × String)) :
    ∀ acc, (∀ kv ∈ m, kv.2 ∉ acc.map Prod.fst) → (m.map Prod.snd).Nodup →
      m.foldl (fun acc kv => dictInsert kv.2 kv.1 acc) acc =
        acc ++ m.map Prod.swap := by
  induction m with
  | nil => intro acc _ _; simp
  | cons kv m ih =>
      intro acc hdisj hnodup
      obtain ⟨a, b⟩ := kv
      rw [List.map_cons, List.nodup_cons] at hnodup
      simp only [List.foldl_cons]
      rw [dictInsert_not_mem _ _ _ (hdisj (a, b) (List.mem_cons_self _ _))]
      rw [ih (acc ++ [(b, a)]) ?_ hnodup.2]
      · simp [Prod.swap]
      · intro q hq
        simp only [List.map_append, List.mem_append, List.map_cons,
          List.map_nil, List.mem_singleton, not_or]
        refine ⟨hdisj q (List.mem_cons_of_mem _ hq), ?_⟩
        intro hc
        apply hnodup.1
        rw [← hc]
        exact List.mem_map.mpr ⟨q, hq, rfl⟩

theorem alookup_swap_idPairs (ps : List Person) :
    ∀ n k (hk : k < ps.length),
      alookup ("p" ++ fmt3 (n + k)) ((idPairs n ps).map Prod.swap) =
        some (stripAt (ps.get ⟨k, hk⟩).ancestryId) := by
  induction ps with
  | nil => intro n k hk; simp at hk
  | cons p ps ih =>
      intro n k hk
      cases k with
      | zero =>
          simp [idPairs, alookup, Prod.swap]
      | succ k =>
          have hk' : k < ps.length := by simpa using hk
          have hne : ¬ ("p" ++ fmt3 n = "p" ++ fmt3 (n + (k + 1))) := by
            intro hc
            have := pfmt_inj hc
            omega
          show alookup _ _ = some (stripAt ((ps.get ⟨k, hk'⟩)).ancestryId)
          rw [idPairs, List.map_cons, Prod.swap_prod_mk, alookup, if_neg hne]
          have : n + (k + 1) = (n + 1) + k := by omega
          rw [this, ih (n + 1) k hk']

/-- C2: with the stripped source ids of the people distinct (as they are
when people come from the individuals map, whose keys are distinct xref
tokens), the identifier map binds the k-th person's stripped source id to
the sequential id p-formatted (k+1), in list order; the inverted lookup
table maps that new id back to the original stripped source id; and the
map is a bijection: both its key list and its value list are free of
duplicates. -/
theorem id_mapping_round_trip (people : List Person)
    (hnodup : (people.map (fun p => stripAt p.ancestryId)).Nodup) :
    (∀ k (hk : k < people.length),
      alookup (stripAt (people.get ⟨k, hk⟩).ancestryId)
          (create_id_mapping people) = some ("p" ++ fmt3 (k + 1)) ∧
      alookup ("p" ++ fmt3 (k + 1))
          (invertMapping (create_id_mapping people)) =
        some (stripAt (people.get ⟨k, hk⟩).ancestryId)) ∧
    ((create_id_mapping people).map Prod.fst).Nodup ∧
    ((create_id_mapping people).map Prod.snd).Nodup := by
  have hmap := create_id_mapping_eq people hnodup
  have hinv : invertMapping (create_id_mapping people) =
      (idPairs 1 people).map Prod.swap := by
    rw [hmap, invertMapping,
        invertMapping_eq (idPairs 1 people) [] (by simp) (idPairs_values_nodup people 1)]
    rfl
  refine ⟨?_, ?_, ?_⟩
  · intro k hk
    constructor
    · rw [hmap, alookup_idPairs people 1 k hk hnodup, Nat.add_comm]
    · rw [hinv]
      have : k + 1 = 1 + k := by omega
      rw [this, alookup_swap_idPairs people 1 k hk]
  · rw [hmap, idPairs_keys]
    exact hnodup
  · rw [hmap]
    exact idPairs_values_nodup people 1

/-- Witness for C2 at a concrete two-person list. -/
theorem id_mapping_round_trip_witness :
    alookup (stripAt (String.mk ['@', 'I', '2', '@']))
        (create_id_mapping
          [{ id := "I1", firstName := "", middleName := none, lastName := "",
             maidenName := none, gender := none, birth := ⟨none, none⟩,
             death := ⟨none, none⟩, notes := none, profilePhoto := none,
             residences := [], famc := [], fams := [], ancestryId := "@I1@" },
           { id := "I2", firstName := "", middleName := none, lastName := "",
             maidenName := none, gender := none, birth := ⟨none, none⟩,
             death := ⟨none, none⟩, notes := none, profilePhoto := none,
             residences := [], famc := [], fams := [], ancestryId := "@I2@" }]) =
      some ("p" ++ fmt3 2) := by
  have h := (id_mapping_round_trip
    [{ id := "I1", firstName := "", middleName := none, lastName := "",
       maidenName := none, gender := none, birth := ⟨none, none⟩,
       death := ⟨none, none⟩, notes := none, profilePhoto := none,
       residences := [], famc := [], fams := [], ancestryId := "@I1@" },
     { id := "I2", firstName := "", middleName := none, lastName := "",
       maidenName := none, gender := none, birth := ⟨none, none⟩,
       death := ⟨none, none⟩, notes := none, profilePhoto := none,
       residences := [], famc := [], fams := [], ancestryId := "@I2@" }]
    (by decide)).1 1 (by decide)
  exact h.1

end Gedcom

